import Mathlib

/-!
Verification of the grid utility functions and effect lifecycle of
`src/Effects.h` (Minesweeper-style game effects).

The C++ code is shallowly embedded:

* A boolean grid of size `H × W` is modelled as a total function
  `Int → Int → Bool`; the C++ arrays are only defined on
  `[0, H) × [0, W)`, and every array access in the embedded functions is
  guarded by the same bounds test as in the source, so values outside the
  grid are never consulted or changed.
* The C++ `int` indices are modelled as `Int` (no overflow occurs for the
  small offsets involved), counters and scores as `Int`.
* Mutation of the `selected`/`scored` arrays is modelled by returning
  updated functions.
* `float` seconds are modelled as `ℚ`; the C++ cast `(int)(x + 0.5f)`
  truncates toward zero, which on the positive values it is applied to is
  the floor.
-/

/-- Bounds test of the source: `ch >= 0 && ch < (int)H && cv >= 0 && cv < (int)W`. -/
def inBounds (H W : Nat) (r c : Int) : Bool :=
  decide (0 ≤ r) && decide (r < (H : Int)) && decide (0 ≤ c) && decide (c < (W : Int))

/-- The eight loop offsets `(horizontal, vertical)` in the order the two
nested `for` loops of the source produce them, with `(0,0)` skipped by the
`continue`. -/
def neighborOffsets : List (Int × Int) :=
  [(-1, -1), (-1, 0), (-1, 1), (0, -1), (0, 1), (1, -1), (1, 0), (1, 1)]

/-- The positions `(rows + horizontal, columns + vertical)` examined by the
loops of `countMines`, `floodScore` and `floodDemolition`. -/
def neighborPositions (rows columns : Int) : List (Int × Int) :=
  neighborOffsets.map (fun d => (rows + d.1, columns + d.2))

/-- `countMines` of `Effects.h`: walk the eight neighbor offsets, and for each
position passing the bounds test, increment the count when the grid holds a
mine there. -/
def countMines (H W : Nat) (grid : Int → Int → Bool) (rows columns : Int) : Int :=
  (neighborPositions rows columns).foldl
    (fun count p =>
      if inBounds H W p.1 p.2 then
        if grid p.1 p.2 then count + 1 else count
      else count)
    0

lemma neighborOffsets_nodup : neighborOffsets.Nodup := by decide

lemma neighborPositions_nodup (rows columns : Int) :
    (neighborPositions rows columns).Nodup := by
  refine List.Nodup.map ?_ neighborOffsets_nodup
  intro d e h
  have h1 : rows + d.1 = rows + e.1 := congrArg Prod.fst h
  have h2 : columns + d.2 = columns + e.2 := congrArg Prod.snd h
  exact Prod.ext (by omega) (by omega)

lemma mem_neighborPositions {rows columns : Int} {p : Int × Int} :
    p ∈ neighborPositions rows columns ↔
      rows - 1 ≤ p.1 ∧ p.1 ≤ rows + 1 ∧ columns - 1 ≤ p.2 ∧ p.2 ≤ columns + 1 ∧
        p ≠ (rows, columns) := by
  obtain ⟨a, b⟩ := p
  simp only [neighborPositions, neighborOffsets, List.mem_map, List.mem_cons,
    List.not_mem_nil, or_false, Prod.mk.injEq, Prod.ext_iff, ne_eq, not_and]
  constructor
  · rintro ⟨⟨dx, dy⟩, hd, h1, h2⟩
    simp only [Prod.mk.injEq] at hd
    omega
  · intro h
    refine ⟨(a - rows, b - columns), ?_, by omega, by omega⟩
    simp only [Prod.mk.injEq]
    omega

lemma countMines_foldl (H W : Nat) (grid : Int → Int → Bool) :
    ∀ (l : List (Int × Int)) (acc : Int),
      l.foldl
        (fun count p =>
          if inBounds H W p.1 p.2 then
            if grid p.1 p.2 then count + 1 else count
          else count)
        acc =
      acc + ((l.filter (fun p => inBounds H W p.1 p.2 && grid p.1 p.2)).length : Int)
  | [], acc => by simp
  | p :: rest, acc => by
    by_cases hIn : inBounds H W p.1 p.2 = true
    · by_cases hG : grid p.1 p.2 = true
      · simp [List.foldl_cons, hIn, hG, countMines_foldl H W grid rest, List.filter_cons]
        omega
      · simp [List.foldl_cons, hIn, hG, countMines_foldl H W grid rest, List.filter_cons]
    · simp [List.foldl_cons, hIn, countMines_foldl H W grid rest, List.filter_cons]

lemma countMines_eq_length (H W : Nat) (grid : Int → Int → Bool) (rows columns : Int) :
    countMines H W grid rows columns =
      (((neighborPositions rows columns).filter
          (fun p => inBounds H W p.1 p.2 && grid p.1 p.2)).length : Int) := by
  simpa using countMines_foldl H W grid (neighborPositions rows columns) 0

/-- C1: `countMines` returns exactly the number of in-bounds positions in the
8-neighborhood of `(rows, columns)` — positions within Chebyshev distance 1,
the cell itself excluded — at which the grid holds a mine.  The statement is
unconditional in `(rows, columns)`, so it covers interior cells, boundary
cells (where some neighbors fail the bounds test) and even out-of-range
cells. -/
theorem countMines_correct (H W : Nat) (grid : Int → Int → Bool) (rows columns : Int) :
    countMines H W grid rows columns =
      (((Finset.Icc (rows - 1) (rows + 1) ×ˢ Finset.Icc (columns - 1) (columns + 1)).filter
          (fun p => p ≠ (rows, columns) ∧ inBounds H W p.1 p.2 = true ∧
            grid p.1 p.2 = true)).card : Int) := by
  rw [countMines_eq_length]
  congr 1
  rw [← List.toFinset_card_of_nodup
    (List.Nodup.filter _ (neighborPositions_nodup rows columns))]
  congr 1
  ext p
  simp only [List.mem_toFinset, List.mem_filter, mem_neighborPositions, Finset.mem_filter,
    Finset.mem_product, Finset.mem_Icc, Bool.and_eq_true]
  constructor
  · rintro ⟨⟨h1, h2, h3, h4, h5⟩, h6, h7⟩
    exact ⟨⟨⟨h1, h2⟩, h3, h4⟩, h5, h6, h7⟩
  · rintro ⟨⟨⟨h1, h2⟩, h3, h4⟩, h5, h6, h7⟩
    exact ⟨⟨h1, h2, h3, h4, h5⟩, h6, h7⟩

/-- Functional model of the assignment `f[x][y] = v` to a boolean grid. -/
def setCell (f : Int → Int → Bool) (x y : Int) (v : Bool) : Int → Int → Bool :=
  fun a b => if (a, b) = (x, y) then v else f a b

/-- The test of `floodScore`'s inner branch together with its bounds guard:
the examined square is in bounds, is not a mine, and has not been scored. -/
def scoreEligible (H W : Nat) (grid scored : Int → Int → Bool) (p : Int × Int) : Bool :=
  inBounds H W p.1 p.2 && !grid p.1 p.2 && !scored p.1 p.2

/-- Loop body of `floodScore` of `Effects.h`, processing the examined
positions in loop order: for each in-bounds position that is neither a mine
nor already scored, set `selected` and `scored` there and add 100 to the
score. -/
def floodScoreAux (H W : Nat) (grid : Int → Int → Bool) :
    List (Int × Int) →
      (Int → Int → Bool) × (Int → Int → Bool) × Int →
      (Int → Int → Bool) × (Int → Int → Bool) × Int
  | [], st => st
  | p :: rest, (selected, scored, score) =>
    if inBounds H W p.1 p.2 then
      if !grid p.1 p.2 && !scored p.1 p.2 then
        floodScoreAux H W grid rest
          (setCell selected p.1 p.2 true, setCell scored p.1 p.2 true, score + 100)
      else floodScoreAux H W grid rest (selected, scored, score)
    else floodScoreAux H W grid rest (selected, scored, score)

/-- `floodScore` of `Effects.h`; the returned triple is the final `selected`
grid, the final `scored` grid, and the returned score. -/
def floodScore (H W : Nat) (grid selected scored : Int → Int → Bool) (rows columns : Int) :
    (Int → Int → Bool) × (Int → Int → Bool) × Int :=
  floodScoreAux H W grid (neighborPositions rows columns) (selected, scored, 0)

lemma setCell_same (f : Int → Int → Bool) (x y : Int) (v : Bool) :
    setCell f x y v x y = v := by
  simp [setCell]

lemma setCell_other (f : Int → Int → Bool) {x y a b : Int} (v : Bool)
    (h : (a, b) ≠ (x, y)) : setCell f x y v a b = f a b := by
  simp [setCell, h]

lemma scoreEligible_setCell (H W : Nat) (grid scored : Int → Int → Bool) {x y : Int}
    {q : Int × Int} (h : q ≠ (x, y)) :
    scoreEligible H W grid (setCell scored x y true) q = scoreEligible H W grid scored q := by
  have : setCell scored x y true q.1 q.2 = scored q.1 q.2 := by
    refine setCell_other scored true ?_
    simpa using h
  simp [scoreEligible, this]


lemma floodScoreAux_spec (H W : Nat) (grid : Int → Int → Bool) :
    ∀ (ps : List (Int × Int)), ps.Nodup →
      ∀ (selected scored : Int → Int → Bool) (score : Int) (a b : Int),
        (floodScoreAux H W grid ps (selected, scored, score)).1 a b =
          (selected a b || (decide ((a, b) ∈ ps) && scoreEligible H W grid scored (a, b))) ∧
        (floodScoreAux H W grid ps (selected, scored, score)).2.1 a b =
          (scored a b || (decide ((a, b) ∈ ps) && scoreEligible H W grid scored (a, b))) ∧
        (floodScoreAux H W grid ps (selected, scored, score)).2.2 =
          score + 100 * ((ps.countP (scoreEligible H W grid scored) : Int)) := by
  intro ps
  induction ps with
  | nil =>
    intro _ selected scored score a b
    simp [floodScoreAux]
  | cons p rest ih =>
    obtain ⟨px, py⟩ := p
    intro hnd selected scored score a b
    obtain ⟨hp, hrest⟩ := List.nodup_cons.mp hnd
    by_cases hIn : inBounds H W px py = true
    · by_cases hInner : (!grid px py && !scored px py) = true
      · have hElig : scoreEligible H W grid scored (px, py) = true := by
          simp only [Bool.and_eq_true] at hInner
          simp [scoreEligible, hIn, hInner.1, hInner.2]
        have hstep : floodScoreAux H W grid ((px, py) :: rest) (selected, scored, score) =
            floodScoreAux H W grid rest
              (setCell selected px py true, setCell scored px py true, score + 100) := by
          simp only [floodScoreAux]
          rw [if_pos hIn, if_pos hInner]
        rw [hstep]
        obtain ⟨ih1, ih2, ih3⟩ := ih hrest (setCell selected px py true)
          (setCell scored px py true) (score + 100) a b
        have hcnt : rest.countP (scoreEligible H W grid (setCell scored px py true)) =
            rest.countP (scoreEligible H W grid scored) := by
          refine List.countP_congr ?_
          intro q hq
          have hqp : q ≠ ((px, py) : Int × Int) := fun hEq => hp (hEq ▸ hq)
          rw [scoreEligible_setCell H W grid scored hqp]
        have hscore : (floodScoreAux H W grid rest
            (setCell selected px py true, setCell scored px py true, score + 100)).2.2 =
            score + 100 * ((((px, py) :: rest).countP (scoreEligible H W grid scored) : Int)) := by
          rw [ih3, hcnt, List.countP_cons_of_pos _ _ hElig]
          push_cast
          omega
        by_cases hab : ((a, b) : Int × Int) = (px, py)
        · have ha : a = px := congrArg Prod.fst hab
          have hb : b = py := congrArg Prod.snd hab
          subst ha
          subst hb
          refine ⟨?_, ?_, hscore⟩
          · rw [ih1, setCell_same]
            simp [hp, hElig]
          · rw [ih2, setCell_same]
            simp [hp, hElig]
        · refine ⟨?_, ?_, hscore⟩
          · rw [ih1, setCell_other selected true hab, scoreEligible_setCell H W grid scored hab]
            simp [List.mem_cons, hab]
          · rw [ih2, setCell_other scored true hab, scoreEligible_setCell H W grid scored hab]
            simp [List.mem_cons, hab]
      · have h2 : (!grid px py && !scored px py) = false := by
          revert hInner
          cases !grid px py && !scored px py <;> simp
        have hElig : scoreEligible H W grid scored (px, py) = false := by
          simp [scoreEligible, Bool.and_assoc, h2]
        have hnElig : ¬(scoreEligible H W grid scored ((px, py) : Int × Int) = true) := by
          simp [hElig]
        have hstep : floodScoreAux H W grid ((px, py) :: rest) (selected, scored, score) =
            floodScoreAux H W grid rest (selected, scored, score) := by
          simp [floodScoreAux, hIn, h2]
        rw [hstep]
        obtain ⟨ih1, ih2, ih3⟩ := ih hrest selected scored score a b
        refine ⟨?_, ?_, ?_⟩
        · rw [ih1]
          by_cases hab : ((a, b) : Int × Int) = (px, py)
          · simp [hab, hElig]
          · simp [List.mem_cons, hab]
        · rw [ih2]
          by_cases hab : ((a, b) : Int × Int) = (px, py)
          · simp [hab, hElig]
          · simp [List.mem_cons, hab]
        · rw [ih3, List.countP_cons_of_neg _ _ hnElig]
    · have hIn2 : inBounds H W px py = false := by
        revert hIn
        cases inBounds H W px py <;> simp
      have hElig : scoreEligible H W grid scored (px, py) = false := by
        simp [scoreEligible, hIn2]
      have hnElig : ¬(scoreEligible H W grid scored ((px, py) : Int × Int) = true) := by
        simp [hElig]
      have hstep : floodScoreAux H W grid ((px, py) :: rest) (selected, scored, score) =
          floodScoreAux H W grid rest (selected, scored, score) := by
        simp [floodScoreAux, hIn2]
      rw [hstep]
      obtain ⟨ih1, ih2, ih3⟩ := ih hrest selected scored score a b
      refine ⟨?_, ?_, ?_⟩
      · rw [ih1]
        by_cases hab : ((a, b) : Int × Int) = (px, py)
        · simp [hab, hElig]
        · simp [List.mem_cons, hab]
      · rw [ih2]
        by_cases hab : ((a, b) : Int × Int) = (px, py)
        · simp [hab, hElig]
        · simp [List.mem_cons, hab]
      · rw [ih3, List.countP_cons_of_neg _ _ hnElig]

/-- The cells `floodScore` acts on: examined neighbor positions that are in
bounds, not mines, and not already scored. -/
def scoreEligibleSet (H W : Nat) (grid scored : Int → Int → Bool) (rows columns : Int) :
    Finset (Int × Int) :=
  ((neighborPositions rows columns).filter (scoreEligible H W grid scored)).toFinset

lemma mem_scoreEligibleSet_iff {H W : Nat} {grid scored : Int → Int → Bool}
    {rows columns : Int} {p : Int × Int} :
    p ∈ scoreEligibleSet H W grid scored rows columns ↔
      p ∈ neighborPositions rows columns ∧ scoreEligible H W grid scored p = true := by
  simp [scoreEligibleSet, List.mem_filter]

lemma scoreEligibleSet_card (H W : Nat) (grid scored : Int → Int → Bool)
    (rows columns : Int) :
    (scoreEligibleSet H W grid scored rows columns).card =
      (neighborPositions rows columns).countP (scoreEligible H W grid scored) := by
  rw [scoreEligibleSet, List.toFinset_card_of_nodup
    (List.Nodup.filter _ (neighborPositions_nodup rows columns)),
    List.countP_eq_length_filter]

/-- C2: `floodScore` marks as selected and scored exactly the in-bounds
8-neighborhood positions of `(rows, columns)` that are not mines and were not
already scored, leaves every other cell of both marker grids unchanged, and
returns 100 times the number of cells it newly marked.  The first conjunct
pins down the marked set in elementary terms; the remaining conjuncts state
the marking, the frame condition and the returned score. -/
theorem floodScore_correct (H W : Nat) (grid selected scored : Int → Int → Bool)
    (rows columns : Int) :
    (∀ p : Int × Int, p ∈ scoreEligibleSet H W grid scored rows columns ↔
        (rows - 1 ≤ p.1 ∧ p.1 ≤ rows + 1 ∧ columns - 1 ≤ p.2 ∧ p.2 ≤ columns + 1 ∧
          p ≠ (rows, columns)) ∧
        inBounds H W p.1 p.2 = true ∧ grid p.1 p.2 = false ∧ scored p.1 p.2 = false) ∧
    (∀ p : Int × Int, p ∈ scoreEligibleSet H W grid scored rows columns →
        (floodScore H W grid selected scored rows columns).1 p.1 p.2 = true ∧
        (floodScore H W grid selected scored rows columns).2.1 p.1 p.2 = true) ∧
    (∀ p : Int × Int, p ∉ scoreEligibleSet H W grid scored rows columns →
        (floodScore H W grid selected scored rows columns).1 p.1 p.2 = selected p.1 p.2 ∧
        (floodScore H W grid selected scored rows columns).2.1 p.1 p.2 = scored p.1 p.2) ∧
    (floodScore H W grid selected scored rows columns).2.2 =
      100 * ((scoreEligibleSet H W grid scored rows columns).card : Int) := by
  have hspec := floodScoreAux_spec H W grid (neighborPositions rows columns)
    (neighborPositions_nodup rows columns) selected scored 0
  refine ⟨?_, ?_, ?_, ?_⟩
  · intro p
    rw [mem_scoreEligibleSet_iff, mem_neighborPositions]
    simp only [scoreEligible, Bool.and_eq_true, Bool.not_eq_true']
    tauto
  · intro p hmem
    rw [mem_scoreEligibleSet_iff] at hmem
    obtain ⟨h1, h2, _⟩ := hspec p.1 p.2
    rw [Prod.mk.eta] at h1 h2
    rw [floodScore, h1, h2]
    simp [hmem.1, hmem.2]
  · intro p hmem
    rw [mem_scoreEligibleSet_iff] at hmem
    obtain ⟨h1, h2, _⟩ := hspec p.1 p.2
    rw [Prod.mk.eta] at h1 h2
    rw [floodScore, h1, h2]
    by_cases hl : p ∈ neighborPositions rows columns
    · have he : scoreEligible H W grid scored p = false := by
        rcases Bool.eq_false_or_eq_true (scoreEligible H W grid scored p) with h | h
        · exact absurd ⟨hl, h⟩ hmem
        · exact h
      simp [he]
    · simp [hl]
  · obtain ⟨_, _, h3⟩ := hspec 0 0
    rw [floodScore, h3, scoreEligibleSet_card]
    omega

/-- Concrete run of `floodScore` obtained from `floodScore_correct`: on an
empty 2×2 grid with nothing yet scored, clicking cell `(0,0)` selects and
scores its three in-bounds neighbors and returns score 300. -/
theorem floodScore_correct_witness :
    (floodScore 2 2 (fun _ _ => false) (fun _ _ => false) (fun _ _ => false) 0 0).1 1 1 = true ∧
    (floodScore 2 2 (fun _ _ => false) (fun _ _ => false) (fun _ _ => false) 0 0).2.1 1 1 = true ∧
    (floodScore 2 2 (fun _ _ => false) (fun _ _ => false) (fun _ _ => false) 0 0).2.2 = 300 := by
  have h := floodScore_correct 2 2 (fun _ _ => false) (fun _ _ => false) (fun _ _ => false) 0 0
  have hm : ((1, 1) : Int × Int) ∈
      scoreEligibleSet 2 2 (fun _ _ => false) (fun _ _ => false) 0 0 := by decide
  obtain ⟨hsel, hsco⟩ := h.2.1 (1, 1) hm
  refine ⟨hsel, hsco, ?_⟩
  rw [h.2.2.2]
  decide

/-- In-bounds and not a mine: the test of `floodDemolition`'s branch. -/
def demolitionEligible (H W : Nat) (grid : Int → Int → Bool) (p : Int × Int) : Bool :=
  inBounds H W p.1 p.2 && !grid p.1 p.2

/-- Loop body of `floodDemolition` of `Effects.h`, processing the examined
positions in loop order: every in-bounds position that is not a mine is
selected. -/
def floodDemolitionAux (H W : Nat) (grid : Int → Int → Bool) :
    List (Int × Int) → (Int → Int → Bool) → (Int → Int → Bool)
  | [], selected => selected
  | p :: rest, selected =>
    if inBounds H W p.1 p.2 then
      if !grid p.1 p.2 then
        floodDemolitionAux H W grid rest (setCell selected p.1 p.2 true)
      else floodDemolitionAux H W grid rest selected
    else floodDemolitionAux H W grid rest selected

/-- `floodDemolition` of `Effects.h`: the returned function is the final
`selected` grid.  The mine grid is taken by `const` reference in the source
and cannot be modified, which the embedding reflects by not returning it. -/
def floodDemolition (H W : Nat) (grid selected : Int → Int → Bool) (rows columns : Int) :
    Int → Int → Bool :=
  floodDemolitionAux H W grid (neighborPositions rows columns) selected

lemma floodDemolitionAux_spec (H W : Nat) (grid : Int → Int → Bool) :
    ∀ (ps : List (Int × Int)) (selected : Int → Int → Bool) (a b : Int),
      floodDemolitionAux H W grid ps selected a b =
        (selected a b || (decide ((a, b) ∈ ps) && demolitionEligible H W grid (a, b))) := by
  intro ps
  induction ps with
  | nil =>
    intro selected a b
    simp [floodDemolitionAux]
  | cons p rest ih =>
    obtain ⟨px, py⟩ := p
    intro selected a b
    by_cases hIn : inBounds H W px py = true
    · by_cases hg : (!grid px py) = true
      · have hElig : demolitionEligible H W grid (px, py) = true := by
          simp [demolitionEligible, hIn, hg]
        have hstep : floodDemolitionAux H W grid ((px, py) :: rest) selected =
            floodDemolitionAux H W grid rest (setCell selected px py true) := by
          simp only [floodDemolitionAux]
          rw [if_pos hIn, if_pos hg]
        rw [hstep, ih]
        by_cases hab : ((a, b) : Int × Int) = (px, py)
        · have ha : a = px := congrArg Prod.fst hab
          have hb : b = py := congrArg Prod.snd hab
          subst ha
          subst hb
          rw [setCell_same]
          simp [hElig]
        · rw [setCell_other selected true hab]
          simp [List.mem_cons, hab]
      · have hg2 : grid px py = true := by
          revert hg
          cases grid px py <;> simp
        have hElig : demolitionEligible H W grid (px, py) = false := by
          simp [demolitionEligible, hg2]
        have hstep : floodDemolitionAux H W grid ((px, py) :: rest) selected =
            floodDemolitionAux H W grid rest selected := by
          simp [floodDemolitionAux, hIn, hg2]
        rw [hstep, ih]
        by_cases hab : ((a, b) : Int × Int) = (px, py)
        · simp [hab, hElig]
        · simp [List.mem_cons, hab]
    · have hIn2 : inBounds H W px py = false := by
        revert hIn
        cases inBounds H W px py <;> simp
      have hElig : demolitionEligible H W grid (px, py) = false := by
        simp [demolitionEligible, hIn2]
      have hstep : floodDemolitionAux H W grid ((px, py) :: rest) selected =
          floodDemolitionAux H W grid rest selected := by
        simp [floodDemolitionAux, hIn2]
      rw [hstep, ih]
      by_cases hab : ((a, b) : Int × Int) = (px, py)
      · simp [hab, hElig]
      · simp [List.mem_cons, hab]

/-- The cells `floodDemolition` acts on: examined neighbor positions that are
in bounds and not mines. -/
def demolitionEligibleSet (H W : Nat) (grid : Int → Int → Bool) (rows columns : Int) :
    Finset (Int × Int) :=
  ((neighborPositions rows columns).filter (demolitionEligible H W grid)).toFinset

lemma mem_demolitionEligibleSet_iff {H W : Nat} {grid : Int → Int → Bool}
    {rows columns : Int} {p : Int × Int} :
    p ∈ demolitionEligibleSet H W grid rows columns ↔
      p ∈ neighborPositions rows columns ∧ demolitionEligible H W grid p = true := by
  simp [demolitionEligibleSet, List.mem_filter]

/-- C6: `floodDemolition` sets `selected` to true at exactly the in-bounds
8-neighborhood positions of `(rows, columns)` that are not mines — the
`scored` grid plays no role, and indeed the function does not even receive
it — and leaves every other cell of `selected` unchanged.  The mine grid is
a `const` reference in the source; the embedding returns only the new
`selected` grid. -/
theorem floodDemolition_correct (H W : Nat) (grid selected : Int → Int → Bool)
    (rows columns : Int) :
    (∀ p : Int × Int, p ∈ demolitionEligibleSet H W grid rows columns ↔
        (rows - 1 ≤ p.1 ∧ p.1 ≤ rows + 1 ∧ columns - 1 ≤ p.2 ∧ p.2 ≤ columns + 1 ∧
          p ≠ (rows, columns)) ∧
        inBounds H W p.1 p.2 = true ∧ grid p.1 p.2 = false) ∧
    (∀ p : Int × Int, p ∈ demolitionEligibleSet H W grid rows columns →
        floodDemolition H W grid selected rows columns p.1 p.2 = true) ∧
    (∀ p : Int × Int, p ∉ demolitionEligibleSet H W grid rows columns →
        floodDemolition H W grid selected rows columns p.1 p.2 = selected p.1 p.2) := by
  have hspec := floodDemolitionAux_spec H W grid (neighborPositions rows columns) selected
  refine ⟨?_, ?_, ?_⟩
  · intro p
    rw [mem_demolitionEligibleSet_iff, mem_neighborPositions]
    simp only [demolitionEligible, Bool.and_eq_true, Bool.not_eq_true']
  · intro p hmem
    rw [mem_demolitionEligibleSet_iff] at hmem
    have h1 := hspec p.1 p.2
    rw [Prod.mk.eta] at h1
    rw [floodDemolition, h1]
    simp [hmem.1, hmem.2]
  · intro p hmem
    rw [mem_demolitionEligibleSet_iff] at hmem
    have h1 := hspec p.1 p.2
    rw [Prod.mk.eta] at h1
    rw [floodDemolition, h1]
    by_cases hl : p ∈ neighborPositions rows columns
    · have he : demolitionEligible H W grid p = false := by
        rcases Bool.eq_false_or_eq_true (demolitionEligible H W grid p) with h | h
        · exact absurd ⟨hl, h⟩ hmem
        · exact h
      simp [he]
    · simp [hl]

/-- Concrete run of `floodDemolition` obtained from `floodDemolition_correct`:
on a 2×2 grid whose only mine is at `(0,1)`, demolishing around `(0,0)`
selects `(1,1)` but not the mine cell `(0,1)`. -/
theorem floodDemolition_correct_witness :
    floodDemolition 2 2 (fun a b => a == 0 && b == 1) (fun _ _ => false) 0 0 1 1 = true ∧
    floodDemolition 2 2 (fun a b => a == 0 && b == 1) (fun _ _ => false) 0 0 0 1 = false := by
  have h := floodDemolition_correct 2 2 (fun a b => a == 0 && b == 1) (fun _ _ => false) 0 0
  have hm : ((1, 1) : Int × Int) ∈
      demolitionEligibleSet 2 2 (fun a b => a == 0 && b == 1) 0 0 := by decide
  have hm2 : ((0, 1) : Int × Int) ∉
      demolitionEligibleSet 2 2 (fun a b => a == 0 && b == 1) 0 0 := by decide
  exact ⟨h.2.1 (1, 1) hm, (h.2.2 (0, 1) hm2).trans rfl⟩

/-- C10: the flood routines are monotone on the marker grids.  Every cell of
`selected` (and, for `floodScore`, of `scored`) that is true before the call
is still true after it: the routines only ever assign `true`, never `false`
(`Bool.le` is the implication order on `Bool`). -/
theorem flood_monotone (H W : Nat) (grid selected scored : Int → Int → Bool)
    (rows columns a b : Int) :
    selected a b ≤ (floodScore H W grid selected scored rows columns).1 a b ∧
    scored a b ≤ (floodScore H W grid selected scored rows columns).2.1 a b ∧
    selected a b ≤ floodDemolition H W grid selected rows columns a b := by
  obtain ⟨h1, h2, _⟩ := floodScoreAux_spec H W grid (neighborPositions rows columns)
    (neighborPositions_nodup rows columns) selected scored 0 a b
  have h3 := floodDemolitionAux_spec H W grid (neighborPositions rows columns) selected a b
  refine ⟨?_, ?_, ?_⟩
  · rw [floodScore, h1]
    cases hsel : selected a b <;> simp [hsel]
  · rw [floodScore, h2]
    cases hsco : scored a b <;> simp [hsco]
  · rw [floodDemolition, h3]
    cases hsel : selected a b <;> simp [hsel]

/-- C4: all grid accesses of `countMines`, `floodScore` and `floodDemolition`
stay inside `[0, H) × [0, W)`, for every start index, in bounds or not.
Reads: the result of `countMines` (and the score of `floodScore`) is
unchanged when the mine grid is replaced by any grid agreeing with it on the
in-bounds cells, so no out-of-bounds cell is ever consulted.  Writes: at any
out-of-bounds cell `(a, b)`, the marker grids returned by the flood routines
coincide with the input grids, so no cell outside the grid is ever marked. -/
theorem flood_access_in_bounds (H W : Nat) (grid grid2 selected scored : Int → Int → Bool)
    (rows columns a b : Int)
    (hagree : ∀ x y : Int, inBounds H W x y = true → grid x y = grid2 x y)
    (hout : inBounds H W a b = false) :
    countMines H W grid rows columns = countMines H W grid2 rows columns ∧
    (floodScore H W grid selected scored rows columns).1 a b = selected a b ∧
    (floodScore H W grid selected scored rows columns).2.1 a b = scored a b ∧
    (floodScore H W grid selected scored rows columns).2.2 =
      (floodScore H W grid2 selected scored rows columns).2.2 ∧
    floodDemolition H W grid selected rows columns a b = selected a b := by
  have hagreeB : ∀ p : Int × Int, inBounds H W p.1 p.2 = true → grid p.1 p.2 = grid2 p.1 p.2 :=
    fun p hin => hagree p.1 p.2 hin
  have hEligOut : scoreEligible H W grid scored (a, b) = false := by
    simp [scoreEligible, hout]
  obtain ⟨h1, h2, h3⟩ := floodScoreAux_spec H W grid (neighborPositions rows columns)
    (neighborPositions_nodup rows columns) selected scored 0 a b
  obtain ⟨_, _, h3b⟩ := floodScoreAux_spec H W grid2 (neighborPositions rows columns)
    (neighborPositions_nodup rows columns) selected scored 0 a b
  have hdem := floodDemolitionAux_spec H W grid (neighborPositions rows columns) selected a b
  refine ⟨?_, ?_, ?_, ?_, ?_⟩
  · rw [countMines_eq_length, countMines_eq_length]
    congr 1
    refine congrArg List.length (List.filter_congr ?_)
    intro p _
    by_cases hin : inBounds H W p.1 p.2 = true
    · rw [hin, hagreeB p hin]
    · have hin2 : inBounds H W p.1 p.2 = false := by
        revert hin
        cases inBounds H W p.1 p.2 <;> simp
      rw [hin2]
      simp
  · rw [floodScore, h1, hEligOut]
    simp
  · rw [floodScore, h2, hEligOut]
    simp
  · rw [floodScore, floodScore, h3, h3b]
    have : (neighborPositions rows columns).countP (scoreEligible H W grid scored) =
        (neighborPositions rows columns).countP (scoreEligible H W grid2 scored) := by
      refine List.countP_congr ?_
      intro p _
      by_cases hin : inBounds H W p.1 p.2 = true
      · rw [scoreEligible, scoreEligible, hagreeB p hin]
      · have hin2 : inBounds H W p.1 p.2 = false := by
          revert hin
          cases inBounds H W p.1 p.2 <;> simp
        simp [scoreEligible, hin2]
    rw [this]
  · rw [floodDemolition, hdem]
    have : demolitionEligible H W grid (a, b) = false := by
      simp [demolitionEligible, hout]
    rw [this]
    simp

/-- Instance of `flood_access_in_bounds` on a concrete 2×2 mine-free grid:
the flood routines leave the far-away cell `(5, 5)` unmarked and `floodScore`
leaves it unscored. -/
theorem flood_access_in_bounds_witness :
    (floodScore 2 2 (fun _ _ => false) (fun _ _ => false) (fun _ _ => false) 0 0).1 5 5 =
      false ∧
    floodDemolition 2 2 (fun _ _ => false) (fun _ _ => false) 0 0 5 5 = false := by
  have h := flood_access_in_bounds 2 2 (fun _ _ => false) (fun _ _ => false)
    (fun _ _ => false) (fun _ _ => false) 0 0 5 5 (fun _ _ _ => rfl) (by decide)
  exact ⟨h.2.1.trans rfl, h.2.2.2.2.trans rfl⟩

/-- C7 is refuted: the flood routines do not flood-fill.  On a mine-free 1×3
grid the whole row is one contiguous non-mine region containing the start
cell `(0,0)`, and `(0,2)` lies in that region (it is adjacent to `(0,1)`,
which is adjacent to the start), yet after `floodDemolition` and `floodScore`
at `(0,0)` the adjacent cell `(0,1)` is marked while `(0,2)` is neither
selected nor scored: only the immediate 8-neighborhood is processed. -/
theorem flood_not_flood_fill :
    inBounds 1 3 0 2 = true ∧
    (fun _ _ => (false : Bool) : Int → Int → Bool) 0 2 = false ∧
    floodDemolition 1 3 (fun _ _ => false) (fun _ _ => false) 0 0 0 1 = true ∧
    floodDemolition 1 3 (fun _ _ => false) (fun _ _ => false) 0 0 0 2 = false ∧
    (floodScore 1 3 (fun _ _ => false) (fun _ _ => false) (fun _ _ => false) 0 0).1 0 2 =
      false ∧
    (floodScore 1 3 (fun _ _ => false) (fun _ _ => false) (fun _ _ => false) 0 0).2.1 0 2 =
      false := by
  refine ⟨rfl, rfl, by decide, by decide, by decide, by decide⟩

/-- C7 amended: instead of filling the contiguous non-mine region, one call
of `floodScore` or `floodDemolition` changes cells of the immediate
8-neighborhood of the start cell only: every cell at Chebyshev distance
greater than 1 — even a non-mine cell reachable through a chain of adjacent
non-mine cells — is left unchanged. -/
theorem flood_only_immediate_neighborhood (H W : Nat)
    (grid selected scored : Int → Int → Bool) (rows columns a b : Int)
    (hfar : ¬(rows - 1 ≤ a ∧ a ≤ rows + 1 ∧ columns - 1 ≤ b ∧ b ≤ columns + 1)) :
    (floodScore H W grid selected scored rows columns).1 a b = selected a b ∧
    (floodScore H W grid selected scored rows columns).2.1 a b = scored a b ∧
    floodDemolition H W grid selected rows columns a b = selected a b := by
  have hnotmem : ((a, b) : Int × Int) ∉ neighborPositions rows columns := by
    rw [mem_neighborPositions]
    intro hcon
    exact hfar ⟨hcon.1, hcon.2.1, hcon.2.2.1, hcon.2.2.2.1⟩
  obtain ⟨h1, h2, _⟩ := floodScoreAux_spec H W grid (neighborPositions rows columns)
    (neighborPositions_nodup rows columns) selected scored 0 a b
  have h3 := floodDemolitionAux_spec H W grid (neighborPositions rows columns) selected a b
  refine ⟨?_, ?_, ?_⟩
  · rw [floodScore, h1]
    simp [hnotmem]
  · rw [floodScore, h2]
    simp [hnotmem]
  · rw [floodDemolition, h3]
    simp [hnotmem]

/-- Instance of `flood_only_immediate_neighborhood` at the concrete refuting
input: cell `(0,2)` is two steps from `(0,0)`, so it stays unselected. -/
theorem flood_only_immediate_neighborhood_witness :
    floodDemolition 1 3 (fun _ _ => false) (fun _ _ => false) 0 0 0 2 = false := by
  have h := flood_only_immediate_neighborhood 1 3 (fun _ _ => false) (fun _ _ => false)
    (fun _ _ => false) 0 0 0 2 (by omega)
  exact h.2.2.trans rfl

/-- Frame-count computation shared verbatim by the `RingWaveEffect` and
`ScreenFlashEffect` constructors of `Effects.h`: convert a wall-clock
lifetime in seconds to frames at the assumed `fps = 60`.  `float` seconds
are modelled as `ℚ`; the C++ cast `(int)(lifetimeSeconds * fps + 0.5f)`
truncates toward zero, which on the positive operand it is applied to here
is the floor. -/
def framesFromLifetime (lifetimeSecondsIn : ℚ) : Int :=
  if lifetimeSecondsIn ≤ 0 then 1
  else
    if ⌊lifetimeSecondsIn * 60 + 1 / 2⌋ < 1 then 1
    else ⌊lifetimeSecondsIn * 60 + 1 / 2⌋

lemma framesFromLifetime_pos (lifetimeSecondsIn : ℚ) :
    1 ≤ framesFromLifetime lifetimeSecondsIn := by
  unfold framesFromLifetime
  by_cases h : lifetimeSecondsIn ≤ 0
  · rw [if_pos h]
  · rw [if_neg h]
    by_cases h2 : ⌊lifetimeSecondsIn * 60 + 1 / 2⌋ < 1
    · rw [if_pos h2]
    · rw [if_neg h2]
      omega

lemma framesFromLifetime_eq_max (lifetimeSecondsIn : ℚ) :
    framesFromLifetime lifetimeSecondsIn = max 1 (round (lifetimeSecondsIn * 60)) := by
  rw [round_eq]
  unfold framesFromLifetime
  by_cases h : lifetimeSecondsIn ≤ 0
  · rw [if_pos h]
    have hle : lifetimeSecondsIn * 60 + 1 / 2 ≤ 1 / 2 := by nlinarith
    have hmono : ⌊lifetimeSecondsIn * 60 + 1 / 2⌋ ≤ ⌊(1 / 2 : ℚ)⌋ := Int.floor_le_floor hle
    have h0 : ⌊(1 / 2 : ℚ)⌋ = 0 := by
      rw [Int.floor_eq_iff]
      norm_num
    omega
  · rw [if_neg h]
    by_cases h2 : ⌊lifetimeSecondsIn * 60 + 1 / 2⌋ < 1
    · rw [if_pos h2]
      omega
    · rw [if_neg h2]
      omega

/-- State of a `RingWaveEffect` of `Effects.h`.  The purely graphical data
(center position, outline color, the `sf::CircleShape` object) is delegated
to the rendering library and not modelled; `radius` is the radius last
applied to the shape (an `sf::CircleShape` starts with radius 0). -/
structure RingWaveEffect where
  startRadius : ℚ
  endRadius : ℚ
  framesLived : Int
  totalFrames : Int
  radius : ℚ

/-- Constructor of `RingWaveEffect`: store the radii, start `framesLived`
at 0 and convert the lifetime to `totalFrames` at 60 fps. -/
def RingWaveEffect.construct (startRadiusIn endRadiusIn lifetimeSecondsIn : ℚ) :
    RingWaveEffect :=
  { startRadius := startRadiusIn
    endRadius := endRadiusIn
    framesLived := 0
    totalFrames := framesFromLifetime lifetimeSecondsIn
    radius := 0 }

/-- `RingWaveEffect::update` (its `float` frame-time parameter is unused in
the source): compute the clamped progress, interpolate and apply the radius,
advance `framesLived` if below `totalFrames`, and return whether
`framesLived >= totalFrames`. -/
def RingWaveEffect.update (e : RingWaveEffect) : RingWaveEffect × Bool :=
  let progress0 : ℚ := if e.totalFrames > 0 then (e.framesLived : ℚ) / (e.totalFrames : ℚ) else 1
  let progress1 : ℚ := if progress0 < 0 then 0 else progress0
  let progress : ℚ := if progress1 > 1 then 1 else progress1
  let radius : ℚ := e.startRadius + (e.endRadius - e.startRadius) * progress
  let framesLived : Int :=
    if e.framesLived < e.totalFrames then e.framesLived + 1 else e.framesLived
  ({ e with radius := radius, framesLived := framesLived },
    decide (framesLived ≥ e.totalFrames))

/-- The effect state after `n` calls of `RingWaveEffect.update`. -/
def RingWaveEffect.afterUpdates (e : RingWaveEffect) : Nat → RingWaveEffect
  | 0 => e
  | n + 1 => ((RingWaveEffect.afterUpdates e n).update).1

/-- The boolean returned by update call number `n + 1` (counting from the
construction of the effect). -/
def RingWaveEffect.callResult (e : RingWaveEffect) (n : Nat) : Bool :=
  ((RingWaveEffect.afterUpdates e n).update).2

/-- State of a `ScreenFlashEffect` of `Effects.h` (the fill color is purely
graphical and not modelled). -/
structure ScreenFlashEffect where
  framesLived : Int
  totalFrames : Int

/-- Constructor of `ScreenFlashEffect`: 60 fps lifetime conversion, frame
counter starts at 0. -/
def ScreenFlashEffect.construct (lifetimeSecondsIn : ℚ) : ScreenFlashEffect :=
  { framesLived := 0
    totalFrames := framesFromLifetime lifetimeSecondsIn }

/-- `ScreenFlashEffect::update`: advance `framesLived` if below
`totalFrames` and return whether `framesLived >= totalFrames`. -/
def ScreenFlashEffect.update (e : ScreenFlashEffect) : ScreenFlashEffect × Bool :=
  let framesLived : Int :=
    if e.framesLived < e.totalFrames then e.framesLived + 1 else e.framesLived
  ({ e with framesLived := framesLived }, decide (framesLived ≥ e.totalFrames))

/-- The effect state after `n` calls of `ScreenFlashEffect.update`. -/
def ScreenFlashEffect.afterUpdates (e : ScreenFlashEffect) : Nat → ScreenFlashEffect
  | 0 => e
  | n + 1 => ((ScreenFlashEffect.afterUpdates e n).update).1

/-- The boolean returned by update call number `n + 1`. -/
def ScreenFlashEffect.callResult (e : ScreenFlashEffect) (n : Nat) : Bool :=
  ((ScreenFlashEffect.afterUpdates e n).update).2

lemma frameStep_min (n tf : Int) :
    (if min n tf < tf then min n tf + 1 else min n tf) = min (n + 1) tf := by
  by_cases hlt : min n tf < tf
  · rw [if_pos hlt]
    omega
  · rw [if_neg hlt]
    omega

lemma ringAfterUpdates_spec (startRadiusIn endRadiusIn lifetimeSecondsIn : ℚ)
    (n : Nat) :
    ((RingWaveEffect.construct startRadiusIn endRadiusIn lifetimeSecondsIn).afterUpdates
        n).totalFrames = framesFromLifetime lifetimeSecondsIn ∧
    ((RingWaveEffect.construct startRadiusIn endRadiusIn lifetimeSecondsIn).afterUpdates
        n).framesLived = min (n : Int) (framesFromLifetime lifetimeSecondsIn) := by
  induction n with
  | zero =>
    have := framesFromLifetime_pos lifetimeSecondsIn
    constructor
    · rfl
    · simp only [RingWaveEffect.afterUpdates, RingWaveEffect.construct]
      omega
  | succ n ih =>
    obtain ⟨ih1, ih2⟩ := ih
    constructor
    · simp only [RingWaveEffect.afterUpdates, RingWaveEffect.update]
      exact ih1
    · simp only [RingWaveEffect.afterUpdates, RingWaveEffect.update]
      rw [ih1, ih2, frameStep_min]
      norm_cast

lemma flashAfterUpdates_spec (lifetimeSecondsIn : ℚ) (n : Nat) :
    ((ScreenFlashEffect.construct lifetimeSecondsIn).afterUpdates n).totalFrames =
      framesFromLifetime lifetimeSecondsIn ∧
    ((ScreenFlashEffect.construct lifetimeSecondsIn).afterUpdates n).framesLived =
      min (n : Int) (framesFromLifetime lifetimeSecondsIn) := by
  induction n with
  | zero =>
    have := framesFromLifetime_pos lifetimeSecondsIn
    constructor
    · rfl
    · simp only [ScreenFlashEffect.afterUpdates, ScreenFlashEffect.construct]
      omega
  | succ n ih =>
    obtain ⟨ih1, ih2⟩ := ih
    constructor
    · simp only [ScreenFlashEffect.afterUpdates, ScreenFlashEffect.update]
      exact ih1
    · simp only [ScreenFlashEffect.afterUpdates, ScreenFlashEffect.update]
      rw [ih1, ih2, frameStep_min]
      norm_cast

lemma ringCallResult_iff (startRadiusIn endRadiusIn lifetimeSecondsIn : ℚ)
    (n : Nat) :
    (RingWaveEffect.construct startRadiusIn endRadiusIn lifetimeSecondsIn).callResult n =
        true ↔
      framesFromLifetime lifetimeSecondsIn ≤ (n : Int) + 1 := by
  obtain ⟨h1, h2⟩ :=
    ringAfterUpdates_spec startRadiusIn endRadiusIn lifetimeSecondsIn n
  simp only [RingWaveEffect.callResult, RingWaveEffect.update, h1, h2, frameStep_min,
    decide_eq_true_eq, ge_iff_le]
  omega

lemma flashCallResult_iff (lifetimeSecondsIn : ℚ) (n : Nat) :
    (ScreenFlashEffect.construct lifetimeSecondsIn).callResult n = true ↔
      framesFromLifetime lifetimeSecondsIn ≤ (n : Int) + 1 := by
  obtain ⟨h1, h2⟩ := flashAfterUpdates_spec lifetimeSecondsIn n
  simp only [ScreenFlashEffect.callResult, ScreenFlashEffect.update, h1, h2, frameStep_min,
    decide_eq_true_eq, ge_iff_le]
  omega

/-- C3: for both timed effects the total frame count is
`max 1 (round (lifetime * 60))` at the assumed 60 fps — in particular 1
whenever the lifetime is nonpositive — and `update` reports completion
exactly at that frame count: `callResult n`, the boolean of update call
`n + 1`, is false for the first `totalFrames - 1` calls and true from call
`totalFrames` on. -/
theorem effect_total_frames_and_completion
    (startRadiusIn endRadiusIn lifetimeSecondsIn : ℚ) (n : Nat) :
    (RingWaveEffect.construct startRadiusIn endRadiusIn lifetimeSecondsIn).totalFrames =
      max 1 (round (lifetimeSecondsIn * 60)) ∧
    (ScreenFlashEffect.construct lifetimeSecondsIn).totalFrames =
      max 1 (round (lifetimeSecondsIn * 60)) ∧
    (lifetimeSecondsIn ≤ 0 →
      (RingWaveEffect.construct startRadiusIn endRadiusIn lifetimeSecondsIn).totalFrames =
        1 ∧
      (ScreenFlashEffect.construct lifetimeSecondsIn).totalFrames = 1) ∧
    ((RingWaveEffect.construct startRadiusIn endRadiusIn lifetimeSecondsIn).callResult n =
        true ↔
      (RingWaveEffect.construct startRadiusIn endRadiusIn
          lifetimeSecondsIn).totalFrames ≤ (n : Int) + 1) ∧
    ((ScreenFlashEffect.construct lifetimeSecondsIn).callResult n = true ↔
      (ScreenFlashEffect.construct lifetimeSecondsIn).totalFrames ≤ (n : Int) + 1) := by
  have htf : (RingWaveEffect.construct startRadiusIn endRadiusIn
      lifetimeSecondsIn).totalFrames = framesFromLifetime lifetimeSecondsIn := rfl
  have htf2 : (ScreenFlashEffect.construct lifetimeSecondsIn).totalFrames =
      framesFromLifetime lifetimeSecondsIn := rfl
  refine ⟨?_, ?_, ?_, ?_, ?_⟩
  · rw [htf, framesFromLifetime_eq_max]
  · rw [htf2, framesFromLifetime_eq_max]
  · intro hle
    rw [htf, htf2]
    unfold framesFromLifetime
    rw [if_pos hle]
    exact ⟨rfl, rfl⟩
  · rw [htf]
    exact ringCallResult_iff startRadiusIn endRadiusIn lifetimeSecondsIn n
  · rw [htf2]
    exact flashCallResult_iff lifetimeSecondsIn n

/-- Instance of `effect_total_frames_and_completion`: a ring wave with a
half-second lifetime lives 30 frames, its 29th update call reports
unfinished and its 30th reports finished; a screen flash with negative
lifetime lives exactly 1 frame. -/
theorem effect_total_frames_witness :
    (RingWaveEffect.construct 0 10 (1 / 2)).totalFrames = 30 ∧
    (RingWaveEffect.construct 0 10 (1 / 2)).callResult 28 = false ∧
    (RingWaveEffect.construct 0 10 (1 / 2)).callResult 29 = true ∧
    (ScreenFlashEffect.construct (-1)).totalFrames = 1 := by
  have hfloor : ⌊(1 / 2 : ℚ) * 60 + 1 / 2⌋ = 30 := by
    rw [Int.floor_eq_iff]
    norm_num
  have hfl : framesFromLifetime (1 / 2) = 30 := by
    unfold framesFromLifetime
    rw [if_neg (by norm_num), hfloor]
    norm_num
  have htf : (RingWaveEffect.construct 0 10 (1 / 2)).totalFrames = 30 := hfl
  have h29 := (effect_total_frames_and_completion 0 10 (1 / 2) 28).2.2.2.1
  have h30 := (effect_total_frames_and_completion 0 10 (1 / 2) 29).2.2.2.1
  have hneg := (effect_total_frames_and_completion 0 10 (-1) 0).2.2.1 (by norm_num)
  refine ⟨htf, ?_, ?_, hneg.2⟩
  · have hfalse : ¬((RingWaveEffect.construct 0 10 (1 / 2)).callResult 28 = true) := by
      rw [h29, htf]
      omega
    have hbool : ∀ x : Bool, ¬(x = true) → x = false := by decide
    exact hbool _ hfalse
  · rw [h30, htf]
    omega

/-- C9: for every lifetime argument, including zero and negative values, the
constructors of both timed effects establish `totalFrames ≥ 1`, and across
every number of update calls `framesLived` stays within `[0, totalFrames]`
while `totalFrames` never changes; hence the divisor `totalFrames` of the
progress computation in `RingWaveEffect::update` is never zero, and each
effect reports completion on update call number `totalFrames` (a call that
exists, since `totalFrames ≥ 1`). -/
theorem effect_frames_invariant (startRadiusIn endRadiusIn lifetimeSecondsIn : ℚ)
    (n : Nat) :
    1 ≤ (RingWaveEffect.construct startRadiusIn endRadiusIn
        lifetimeSecondsIn).totalFrames ∧
    1 ≤ (ScreenFlashEffect.construct lifetimeSecondsIn).totalFrames ∧
    ((RingWaveEffect.construct startRadiusIn endRadiusIn lifetimeSecondsIn).afterUpdates
        n).totalFrames =
      (RingWaveEffect.construct startRadiusIn endRadiusIn lifetimeSecondsIn).totalFrames ∧
    0 ≤ ((RingWaveEffect.construct startRadiusIn endRadiusIn
        lifetimeSecondsIn).afterUpdates n).framesLived ∧
    ((RingWaveEffect.construct startRadiusIn endRadiusIn lifetimeSecondsIn).afterUpdates
        n).framesLived ≤
      (RingWaveEffect.construct startRadiusIn endRadiusIn lifetimeSecondsIn).totalFrames ∧
    ((RingWaveEffect.construct startRadiusIn endRadiusIn lifetimeSecondsIn).afterUpdates
        n).totalFrames ≠ 0 ∧
    0 ≤ ((ScreenFlashEffect.construct lifetimeSecondsIn).afterUpdates n).framesLived ∧
    ((ScreenFlashEffect.construct lifetimeSecondsIn).afterUpdates n).framesLived ≤
      (ScreenFlashEffect.construct lifetimeSecondsIn).totalFrames ∧
    (RingWaveEffect.construct startRadiusIn endRadiusIn lifetimeSecondsIn).callResult
      ((RingWaveEffect.construct startRadiusIn endRadiusIn
          lifetimeSecondsIn).totalFrames.toNat - 1) = true ∧
    (ScreenFlashEffect.construct lifetimeSecondsIn).callResult
      ((ScreenFlashEffect.construct lifetimeSecondsIn).totalFrames.toNat - 1) = true := by
  have hpos := framesFromLifetime_pos lifetimeSecondsIn
  have htf : (RingWaveEffect.construct startRadiusIn endRadiusIn
      lifetimeSecondsIn).totalFrames = framesFromLifetime lifetimeSecondsIn := rfl
  have htf2 : (ScreenFlashEffect.construct lifetimeSecondsIn).totalFrames =
      framesFromLifetime lifetimeSecondsIn := rfl
  obtain ⟨hr1, hr2⟩ :=
    ringAfterUpdates_spec startRadiusIn endRadiusIn lifetimeSecondsIn n
  obtain ⟨hs1, hs2⟩ := flashAfterUpdates_spec lifetimeSecondsIn n
  refine ⟨by omega, by omega, by rw [hr1, htf], ?_, ?_, ?_, ?_, ?_, ?_, ?_⟩
  · rw [hr2]
    omega
  · rw [hr2, htf]
    omega
  · rw [hr1]
    omega
  · rw [hs2]
    omega
  · rw [hs2, htf2]
    omega
  · rw [ringCallResult_iff, htf]
    omega
  · rw [flashCallResult_iff, htf2]
    omega

/-- `Effects::update` of `Effects.h`.  The container is modelled
generically: `α` is the state of one effect, and `upd dt e` returns the
stepped effect together with the `bool` its virtual `update` returned
(`true` means finished).  The C++ `while` loop walks the vector by index
`i`, erasing (after `delete`) the effect at `i` when its update returned
true and advancing `i` otherwise; in-place mutation of the effect is
modelled by writing the stepped state back with `List.set`. -/
def effectsUpdate {α : Type} (upd : ℚ → α → α × Bool) (frameTimeSec : ℚ)
    (i : Nat) (l : List α) : List α :=
  if h : i < l.length then
    if (upd frameTimeSec l[i]).2 then
      effectsUpdate upd frameTimeSec i (l.eraseIdx i)
    else
      effectsUpdate upd frameTimeSec (i + 1) (l.set i (upd frameTimeSec l[i]).1)
  else l
termination_by l.length - i
decreasing_by
  · have : (l.eraseIdx i).length = l.length - 1 := List.length_eraseIdx_of_lt h
    omega
  · have : (l.set i (upd frameTimeSec l[i]).1).length = l.length := List.length_set l i _
    omega

/-- The intended result of one container update: step every effect that was
in the list at the start of the call exactly once, drop (and free) exactly
the ones whose update returned true, and keep the survivors, with their new
state, in their original relative order. -/
def effectsUpdateSpec {α : Type} (upd : ℚ → α → α × Bool) (frameTimeSec : ℚ)
    (l : List α) : List α :=
  ((l.map (upd frameTimeSec)).filter (fun r => !r.2)).map Prod.fst

lemma effectsUpdate_eq_spec_from {α : Type} (upd : ℚ → α → α × Bool) (frameTimeSec : ℚ) :
    ∀ (n : Nat) (l : List α) (i : Nat), l.length - i ≤ n →
      effectsUpdate upd frameTimeSec i l =
        l.take i ++ effectsUpdateSpec upd frameTimeSec (l.drop i) := by
  intro n
  induction n with
  | zero =>
    intro l i hle
    have h : ¬i < l.length := by omega
    rw [effectsUpdate, dif_neg h, List.drop_eq_nil_of_le (by omega),
      List.take_of_length_le (by omega)]
    simp [effectsUpdateSpec]
  | succ n ih =>
    intro l i hle
    by_cases h : i < l.length
    · have hdropcons : l.drop i = l[i] :: l.drop (i + 1) := List.drop_eq_getElem_cons h
      rw [effectsUpdate, dif_pos h]
      by_cases hdone : (upd frameTimeSec l[i]).2 = true
      · rw [if_pos hdone]
        have hlen : (l.eraseIdx i).length - i ≤ n := by
          have := List.length_eraseIdx_of_lt h
          omega
        rw [ih (l.eraseIdx i) i hlen, List.eraseIdx_eq_take_drop_succ]
        have htakelen : (l.take i).length = i := by
          rw [List.length_take]
          omega
        rw [List.take_left' htakelen, List.drop_left' htakelen, hdropcons]
        simp only [effectsUpdateSpec, List.map_cons, List.filter_cons, hdone]
        simp
      · rw [if_neg hdone]
        have hlen : (l.set i (upd frameTimeSec l[i]).1).length - (i + 1) ≤ n := by
          rw [List.length_set]
          omega
        rw [ih _ (i + 1) hlen]
        have hset : l.set i (upd frameTimeSec l[i]).1 =
            (l.take i ++ [(upd frameTimeSec l[i]).1]) ++ l.drop (i + 1) := by
          rw [List.set_eq_take_cons_drop _ h, List.append_cons]
        have hlen2 : (l.take i ++ [(upd frameTimeSec l[i]).1]).length = i + 1 := by
          rw [List.length_append, List.length_take]
          simp
          omega
        rw [hset, List.take_left' hlen2, List.drop_left' hlen2, hdropcons]
        have hkept : (!(upd frameTimeSec l[i]).2) = true := by
          simp [hdone]
        simp only [effectsUpdateSpec, List.map_cons, List.filter_cons, hkept]
        simp
    · rw [effectsUpdate, dif_neg h, List.drop_eq_nil_of_le (by omega),
        List.take_of_length_le (by omega)]
      simp [effectsUpdateSpec]

/-- C5: one call of `Effects::update` steps, via the effect's `update`,
every effect that was in the list when the call began exactly once, removes
(the C++ also frees) exactly those effects whose update returned `true`, and
keeps the surviving effects, carrying their stepped state, in their original
relative order: the index-and-erase loop computes precisely
map-then-filter-the-finished. -/
theorem effects_update_correct {α : Type} (upd : ℚ → α → α × Bool) (frameTimeSec : ℚ)
    (l : List α) :
    effectsUpdate upd frameTimeSec 0 l =
      ((l.map (upd frameTimeSec)).filter (fun r => !r.2)).map Prod.fst := by
  have h := effectsUpdate_eq_spec_from upd frameTimeSec l.length l 0 (by omega)
  simpa [effectsUpdateSpec] using h

/-- Observed state of an `ExplosionSoundEffect` right after construction:
which volume, if any, was passed to `sound.setVolume`, and whether
`sound.play` was called.  The SFML call `buffer.loadFromFile(file)` is
outside the embedded code; its boolean result is an input of the model. -/
structure ExplosionSoundEffect where
  volumeSet : Option ℚ
  played : Bool

/-- Constructor of `ExplosionSoundEffect` of `Effects.h`: only when
`loadFromFile` reports success are the volume set and the sound played; the
branch has no else, so a failed load is silently ignored.  The model is a
total function: construction always yields an effect and no error is
propagated. -/
def ExplosionSoundEffect.construct (loadOk : Bool) (vol : ℚ) : ExplosionSoundEffect :=
  if loadOk then { volumeSet := some vol, played := true }
  else { volumeSet := none, played := false }

/-- C8: when the audio file fails to load, `ExplosionSoundEffect`
construction still succeeds (the constructor is total and returns an
effect), no error is propagated, the volume is never set and the sound is
never played — the failure is silently ignored and the effect plays
nothing. -/
theorem explosion_sound_load_failure (vol : ℚ) :
    (ExplosionSoundEffect.construct false vol).volumeSet = none ∧
    (ExplosionSoundEffect.construct false vol).played = false :=
  ⟨rfl, rfl⟩
